import Mathlib

set_option autoImplicit false

/-!
Verification of the git-scribe commit pipeline (shallow embedding).

Each definition below mirrors one function of the TypeScript source
(`src/cli.ts`, `src/git.ts`, `src/openai.ts`, `src/cache.ts`,
`src/validation.ts`).  Strings are modelled by Lean `String`
(sequences of characters; JavaScript's UTF-16 `length` is modelled as
character count), external effects (git subprocesses, the HTTP fetch,
the filesystem) are modelled by explicit result parameters of type
`Except` / `Option` supplied by an environment record, and JavaScript
truthiness on strings is modelled as comparison with `""`.
-/

namespace GitScribe

/-- JS `Array.prototype.join(sep)`. -/
def joinSep (sep : String) : List String → String
  | [] => ""
  | [s] => s
  | s :: rest => s ++ sep ++ joinSep sep rest

/-- Does `p` occur at the start of `s`? (helper for substring search). -/
def listPrefixOf : List Char → List Char → Bool
  | [], _ => true
  | _ :: _, [] => false
  | a :: as, b :: bs => a == b && listPrefixOf as bs

/-- Substring occurrence on char lists (helper for `strIncludes`). -/
def listSubstr (pat : List Char) : List Char → Bool
  | [] => pat.isEmpty
  | s@(_ :: rest) => listPrefixOf pat s || listSubstr pat rest

/-- JS `String.prototype.includes(pat)`. -/
def strIncludes (s pat : String) : Bool := listSubstr pat.toList s.toList

/-! ## src/validation.ts -/

/-- Character class `\w` of JS regexes: `[A-Za-z0-9_]`. -/
def isWordChar (c : Char) : Bool := c.isAlphanum || c == '_'

/-- JS `\s` whitespace class, by code point. -/
def isJsWhitespaceCode (n : Nat) : Bool :=
  n == 0x20 || n == 0x09 || n == 0x0A || n == 0x0B || n == 0x0C || n == 0x0D ||
  n == 0xA0 || n == 0x1680 || (0x2000 ≤ n && n ≤ 0x200A) ||
  n == 0x2028 || n == 0x2029 || n == 0x202F || n == 0x205F || n == 0x3000 || n == 0xFEFF

/-- JS `\s` whitespace class. -/
def isJsWhitespace (c : Char) : Bool := isJsWhitespaceCode c.toNat

/-- JS line terminators, the characters `.` does not match. -/
def isLineTerminator (c : Char) : Bool :=
  c.toNat == 0x0A || c.toNat == 0x0D || c.toNat == 0x2028 || c.toNat == 0x2029

/-- The four capture groups of `COMMIT_REGEX = /^(\w+)(?:\(([^)]+)\))?(!)?:\s*(.+)$/`. -/
structure CommitMatch where
  ctype : String
  scope : Option String
  bang : Bool
  description : String
deriving DecidableEq, Repr

/--
Matches the tail `\s*(.+)$` of `COMMIT_REGEX` against the remaining characters.
The greedy `\s*` takes the maximal whitespace prefix; if nothing is left for
`(.+)$` the engine backtracks by exactly one whitespace character (shortest
non-empty remainder).  `.` matches no line terminator, so a remainder holding
one can never match regardless of how far `\s*` backtracks (the terminator
stays in the suffix).
-/
def matchDescription (r : List Char) : Option (List Char) :=
  let ws := r.takeWhile isJsWhitespace
  let rest := r.dropWhile isJsWhitespace
  if rest.isEmpty then
    match ws.getLast? with
    | some c => if isLineTerminator c then none else some [c]
    | none => none
  else if rest.any isLineTerminator then none
  else some rest

/-- Matches `(!)?:\s*(.+)$` after type and optional scope have been consumed. -/
def matchAfterScope (ty : List Char) (scope : Option (List Char)) (r : List Char) :
    Option CommitMatch :=
  let br : Bool × List Char :=
    match r with
    | '!' :: t => (true, t)
    | _ => (false, r)
  match br.2 with
  | ':' :: r3 =>
    match matchDescription r3 with
    | some d => some ⟨String.mk ty, scope.map String.mk, br.1, String.mk d⟩
    | none => none
  | _ => none

/--
`subject.match(COMMIT_REGEX)` for `/^(\w+)(?:\(([^)]+)\))?(!)?:\s*(.+)$/`.
`\w+` is committed to the maximal run (a shorter run would leave a word
character where only `(`, `!` or `:` can follow); the optional scope group,
when `(` is present, must find a non-empty `[^)]+` closed by the first `)`
(skipping the group instead would leave `(` where `!` or `:` is required).
-/
def commitMatch (subject : String) : Option CommitMatch :=
  let s := subject.toList
  let ty := s.takeWhile isWordChar
  let r0 := s.dropWhile isWordChar
  if ty.isEmpty then none
  else
    match r0 with
    | '(' :: r1 =>
      let inner := r1.takeWhile (fun c => c != ')')
      let r2 := r1.dropWhile (fun c => c != ')')
      match inner, r2 with
      | _ :: _, ')' :: r3 => matchAfterScope ty (some inner) r3
      | _, _ => none
    | _ => matchAfterScope ty none r0

/-- `VALID_TYPES` in insertion order (JS `Set` iterates in insertion order). -/
def VALID_TYPES : List String :=
  ["feat", "fix", "docs", "style", "refactor", "perf", "test", "build", "ci", "chore", "revert"]

/-- Result record of `validateConventionalCommit`. -/
structure ValidationResult where
  valid : Bool
  errors : List String
deriving DecidableEq, Repr

/--
`validateConventionalCommit` from src/validation.ts.  A subject that fails
`COMMIT_REGEX` short-circuits to the single format error; otherwise the five
finer checks push their errors in source order.  The casing check compares the
first description character with its upper/lower-case forms (modelled with the
ASCII case maps).
-/
def validateConventionalCommit (subject : String) : ValidationResult :=
  match commitMatch subject with
  | none => ⟨false, ["Invalid format. Expected: type(scope): description"]⟩
  | some m =>
    let e1 : List String :=
      if VALID_TYPES.contains m.ctype then []
      else ["Invalid type \"" ++ m.ctype ++ "\". Valid: " ++ joinSep ", " VALID_TYPES]
    let e2 : List String :=
      if subject.length > 72 then
        ["Subject too long (" ++ toString subject.length ++ "/72 chars)"]
      else []
    let e3 : List String :=
      if m.description.toList.isEmpty then ["Description is required"] else []
    let e4 : List String :=
      match m.description.toList with
      | [] => []
      | c :: _ =>
        if c.toUpper == c && c.toLower != c then ["Description should start with lowercase"] else []
    let e5 : List String :=
      if subject.toList.getLast? == some '.' then ["Subject should not end with a period"] else []
    let errors := e1 ++ e2 ++ e3 ++ e4 ++ e5
    ⟨errors.isEmpty, errors⟩

/-! ## src/cli.ts : DiffAssembler -/

/-- `BINARY_EXTENSIONS` from src/cli.ts (insertion order). -/
def BINARY_EXTENSIONS : List String :=
  [".png", ".jpg", ".jpeg", ".gif", ".ico", ".bmp", ".webp", ".svg", ".tiff", ".psd", ".ai",
   ".woff", ".woff2", ".ttf", ".eot", ".otf",
   ".pdf", ".doc", ".docx", ".xls", ".xlsx", ".ppt", ".pptx", ".odt",
   ".zip", ".tar", ".gz", ".bz2", ".7z", ".rar", ".tgz", ".xz",
   ".mp3", ".mp4", ".mov", ".avi", ".mkv", ".wav", ".flac", ".ogg", ".webm", ".m4a",
   ".exe", ".dll", ".so", ".dylib", ".bin", ".dat", ".o", ".a",
   ".db", ".sqlite", ".sqlite3",
   ".lock", ".lockb", ".yarn-integrity", ".pnp.cjs"]

/-- `IGNORED_PATHS` from src/cli.ts. -/
def IGNORED_PATHS : List String :=
  ["node_modules/", ".git/", "dist/", "build/", ".next/", ".nuxt/", ".output/",
   "vendor/", "__pycache__/", ".venv/", "venv/", ".cache/", ".turbo/"]

/--
JS `path.slice(path.lastIndexOf("."))`: the suffix from the last dot
(inclusive); when there is no dot, `lastIndexOf` is `-1` and `slice(-1)`
yields the final character.
-/
def extSliceList (l : List Char) : List Char :=
  if l.contains '.' then '.' :: (l.reverse.takeWhile (fun c => c != '.')).reverse
  else (l.reverse.take 1).reverse

/-- JS `toLowerCase`, modelled with the ASCII case map. -/
def lowerStr (s : String) : String := String.mk (s.toList.map Char.toLower)

/-- `shouldIgnoreFile` from src/cli.ts. -/
def shouldIgnoreFile (path : String) : Bool :=
  IGNORED_PATHS.any (fun p => strIncludes path p) ||
  BINARY_EXTENSIONS.contains (lowerStr (String.mk (extSliceList path.toList)))

/-- `truncate` from src/cli.ts.  A non-positive cap disables truncation. -/
def truncate (value : String) (maxChars : Int) : String :=
  if maxChars ≤ 0 then value
  else if (value.toList.length : Int) ≤ maxChars then value
  else String.mk (value.toList.take maxChars.toNat) ++ "\n[truncated]"

/-- The ignored-files note pushed by `buildCommitInput` (src/cli.ts line 123). -/
def ignoredNote (ignoredFiles : List String) : String :=
  "\nIgnored from diff (" ++ toString ignoredFiles.length ++ "): " ++
    joinSep ", " (ignoredFiles.take 5) ++ (if ignoredFiles.length > 5 then "..." else "")

/-- The first parts of the payload: selected-files summary plus optional ignored note. -/
def buildBaseParts (files : List String) (status : String) : List String :=
  let ignoredFiles := files.filter shouldIgnoreFile
  let p0 : List String := ["Selected files:", if status == "" then joinSep "\n" files else status]
  if ignoredFiles.length > 0 then p0 ++ [ignoredNote ignoredFiles] else p0

/-- The three parts `unshift`ed when a non-empty recent-commits string is given. -/
def recentPrefix (recent : String) : List String :=
  if recent == "" then [] else ["Recent commits (for style reference):", recent, ""]

/--
The `parts` array of `buildCommitInput` (src/cli.ts lines 109-139).  The
collaborator results (`getShortStatus`, `getDiffStat`, `getDiff`) are the
`status`, `stat` and `patch` parameters; the `unshift` of the recent-commits
header is modelled as the final prepend.
-/
def buildCommitInputParts (files : List String) (status stat patch : String)
    (cap : Int) (recent : String) : List String :=
  let base := buildBaseParts files status ++ ["\nDiffstat:", if stat == "" then "(empty)" else stat]
  let withPatch :=
    if (patch.toList.length : Int) > cap * 2 then
      base ++ ["\n[patch omitted - too large, using diffstat only]"]
    else
      base ++ ["\nPatch:", truncate patch cap]
  recentPrefix recent ++ withPatch

/-- `buildCommitInput`: `parts.join("\n")`. -/
def buildCommitInput (files : List String) (status stat patch : String)
    (cap : Int) (recent : String) : String :=
  joinSep "\n" (buildCommitInputParts files status stat patch cap recent)

/-! ## src/cli.ts : Grouper -/

/-- The `Group` shape `{name, files}`. -/
structure Group where
  name : String
  files : List String
deriving DecidableEq, Repr

/-- A changed path with its two-character status code. -/
structure FileEntry where
  path : String
  status : String
deriving DecidableEq, Repr

/--
The loop body of `sanitizeGroups` (src/cli.ts lines 242-256): filter each
group's files to allowed-and-unseen, drop groups that become empty, extend
`seen` with the kept files, default an empty name to `"group"`.
-/
def sanitizeGroupsAux (allowed : List String) : List Group → List String → List Group
  | [], _ => []
  | g :: rest, seen =>
    let files := g.files.filter (fun f => allowed.contains f && !(seen.contains f))
    if files.isEmpty then sanitizeGroupsAux allowed rest seen
    else
      { name := if g.name == "" then "group" else g.name, files := files } ::
        sanitizeGroupsAux allowed rest (seen ++ files)

/-- `sanitizeGroups` from src/cli.ts. -/
def sanitizeGroups (groups : List Group) (allowed : List String) : List Group :=
  sanitizeGroupsAux allowed groups []

/-- JS `path.includes("/") ? path.split("/")[0] : "root"`. -/
def topSegment (p : String) : String :=
  if strIncludes p "/" then String.mk (p.toList.takeWhile (fun c => c != '/')) else "root"

/--
Insertion-ordered map update used by `groupByDirectory`: a JS `Map` keeps an
existing key in place and appends a new key at the end; the pushed value goes
to the end of the key's list.
-/
def upsert (m : List (String × List String)) (k : String) (v : String) :
    List (String × List String) :=
  match m with
  | [] => [(k, [v])]
  | (k1, l) :: rest => if k1 == k then (k1, l ++ [v]) :: rest else (k1, l) :: upsert rest k v

/-- `groupByDirectory` from src/cli.ts (lines 230-240). -/
def groupByDirectory (files : List FileEntry) : List Group :=
  (files.foldl (fun m f => upsert m (topSegment f.path) f.path) []).map
    (fun e => ⟨e.1, e.2⟩)

/-- Two groups with no file in common. -/
def groupsDisjoint (a b : Group) : Prop := ∀ f ∈ a.files, f ∉ b.files

/-- Invariant of the directory map built by `groupByDirectory`: keys are
pairwise distinct, every bucket is non-empty, and every path sits in the
bucket of its own top segment. -/
def dirMapGood (m : List (String × List String)) : Prop :=
  m.Pairwise (fun a b => a.1 ≠ b.1)
  ∧ ∀ e ∈ m, e.2 ≠ [] ∧ ∀ p ∈ e.2, topSegment p = e.1

/-! ## requestText from src/git.ts (MessageClient) -/

/-- What one network attempt of `requestText` observes. -/
inductive AttemptOutcome
  | httpOk (text : String)                    -- 2xx response; extracted body text
  | httpErr (status : Nat) (errText : String) -- non-2xx status with its body text
  | abortTimeout                              -- fetch aborted by the timeout controller
  | fetchErr (msg : String)                   -- any other exception thrown by fetch
deriving DecidableEq, Repr

/-- The error message built for a non-2xx response. -/
def httpErrMsg (status : Nat) (errText : String) : String :=
  "OpenAI error: " ++ toString status ++ " " ++ errText

/-- The error message substituted for an `AbortError`. -/
def timeoutMsg (timeout : Nat) : String :=
  "Request timeout after " ++ toString timeout ++ "ms"

/--
The catch-block classification of `requestText`: the error is rethrown
(fatal) exactly when its message contains none of `"429"`, `"5"`,
`"timeout"`, `"ECONNRESET"`; otherwise the loop falls through to the backoff
sleep and the next attempt.
-/
def catchFatal (msg : String) : Bool :=
  !(strIncludes msg "429") && !(strIncludes msg "5") &&
    !(strIncludes msg "timeout" || strIncludes msg "ECONNRESET")

/--
The retry loop of `requestText` (src/git.ts lines 240-288) over an oracle
giving each attempt's outcome.  Arguments: attempt index, remaining
iterations of `for (attempt < maxRetries)`, the current `lastError`.
Returns the overall result together with the number of network attempts
consumed.  A non-429 status below 500 triggers `throw lastError` inside the
`try`, which its own `catch` then re-examines via `catchFatal`; a 429 or ≥500
status skips the throw and retries directly.
-/
def requestTextLoop (outcomes : Nat → AttemptOutcome) (timeout : Nat) :
    Nat → Nat → Option String → Except String String × Nat
  | _, 0, lastError => (Except.error (lastError.getD "Request failed after retries"), 0)
  | attempt, remaining + 1, _ =>
    match outcomes attempt with
    | .httpOk t => (Except.ok t, 1)
    | .httpErr status errText =>
      let msg := httpErrMsg status errText
      if status != 429 && status < 500 then
        if catchFatal msg then (Except.error msg, 1)
        else
          let r := requestTextLoop outcomes timeout (attempt + 1) remaining (some msg)
          (r.1, r.2 + 1)
      else
        let r := requestTextLoop outcomes timeout (attempt + 1) remaining (some msg)
        (r.1, r.2 + 1)
    | .abortTimeout =>
      let msg := timeoutMsg timeout
      if catchFatal msg then (Except.error msg, 1)
      else
        let r := requestTextLoop outcomes timeout (attempt + 1) remaining (some msg)
        (r.1, r.2 + 1)
    | .fetchErr m =>
      if catchFatal m then (Except.error m, 1)
      else
        let r := requestTextLoop outcomes timeout (attempt + 1) remaining (some m)
        (r.1, r.2 + 1)

/-- `requestText`, entered with attempt 0 and no previous error. -/
def requestText (outcomes : Nat → AttemptOutcome) (timeout maxRetries : Nat) :
    Except String String × Nat :=
  requestTextLoop outcomes timeout 0 maxRetries none

/-- The message an attempt contributes to `lastError` when it is not a success. -/
def attemptMsg (timeout : Nat) : AttemptOutcome → String
  | .httpOk _ => ""
  | .httpErr status errText => httpErrMsg status errText
  | .abortTimeout => timeoutMsg timeout
  | .fetchErr m => m

/-- Does the loop move on to the next attempt after this outcome? -/
def isRetryableOutcome (timeout : Nat) : AttemptOutcome → Bool
  | .httpOk _ => false
  | .httpErr status errText =>
    if status != 429 && status < 500 then !(catchFatal (httpErrMsg status errText)) else true
  | .abortTimeout => !(catchFatal (timeoutMsg timeout))
  | .fetchErr m => !(catchFatal m)

/-- `Math.random() * 0.3 + 0.85`, over an exact rational `rand ∈ [0, 1)`. -/
def jitterOf (rand : ℚ) : ℚ := rand * (3 / 10) + 17 / 20

/-- The backoff sleep computed after failed attempt `attempt` (0-indexed). -/
def backoffDelay (baseDelay maxDelay : ℚ) (attempt : Nat) (rand : ℚ) : ℚ :=
  min (baseDelay * 2 ^ attempt * jitterOf rand) maxDelay

/-! ## generateCommitMessage (src/git.ts lines 189-311) -/

/-- The JSON object the model replied with, as seen after `JSON.parse`.
`subject = none` models a missing (or otherwise absent) `subject` field. -/
structure JsonMsg where
  subject : Option String
  body : Option String
deriving DecidableEq, Repr

/-- The `{subject, body}` pair flowing through the pipeline. -/
structure PipelineMessage where
  subject : String
  body : Option String
deriving DecidableEq, Repr

/--
`extractJson`: locate the first `\x7b` and last `\x7d`; fail when either is
absent or `end <= start`; otherwise `JSON.parse` the slice (its result is the
`parsed` oracle, `none` when it throws) and reject a falsy subject — both a
missing subject and the empty-string subject yield `null`.
-/
def extractJson (text : String) (parsed : Option JsonMsg) : Option PipelineMessage :=
  match text.toList.findIdx? (fun c => c == '\x7b'),
        text.toList.reverse.findIdx? (fun c => c == '\x7d') with
  | some s, some revE =>
    let e := text.toList.length - 1 - revE
    if e ≤ s then none
    else
      match parsed with
      | none => none
      | some o =>
        match o.subject with
        | none => none
        | some subj => if subj == "" then none else some ⟨subj, o.body⟩
  | _, _ => none

/-- `generateCommitMessage`: request text, then parse; a `null` parse is the
fatal `"Failed to parse OpenAI response."` error. -/
def generateCommitMessage (textResult : Except String String) (parsed : Option JsonMsg) :
    Except String PipelineMessage :=
  match textResult with
  | .error e => .error e
  | .ok text =>
    match extractJson text parsed with
    | none => .error "Failed to parse OpenAI response."
    | some m => .ok m

/-! ## src/cache.ts -/

/--
`getCachedMessage`: resolving the git dir (`getGitDir`, a shell invocation)
happens outside the try/catch and rejects on failure; the `readFile` +
`JSON.parse` of the entry is caught and degrades to a miss.  `readData =
none` models a read failure, `parsedCache = none` a parse failure.
-/
def getCachedMessage (gitDirResult : Except String String)
    (readData : Option String) (parsedCache : Option PipelineMessage) :
    Except String (Option PipelineMessage) :=
  match gitDirResult with
  | .error e => .error e
  | .ok _ =>
    match readData with
    | none => .ok none
    | some _ =>
      match parsedCache with
      | none => .ok none
      | some m => .ok (some m)

/-- `setCachedMessage`: git-dir resolution, `mkdir` and `writeFile` in
sequence, with no try/catch — any failing step rejects the whole call. -/
def setCachedMessage (gitDirResult : Except String String)
    (mkdirResult writeResult : Except String Unit) : Except String Unit := do
  let _ ← gitDirResult
  let _ ← mkdirResult
  writeResult

/-! ## commitFlow (src/cli.ts lines 298-392, CommitOrchestrator) -/

/-- The `CommitOptions` fields `commitFlow` branches on. -/
structure CFOptions where
  useHunks : Bool
  dryRun : Bool
  auto : Bool
  scopeOverride : Option String
deriving Repr

/-- Outcomes of every external interaction one `commitFlow` run can make. -/
structure CFEnv where
  addFilesResult : Except String Unit            -- git add
  addFilesInteractiveResult : Except String Unit -- git add -p
  interactiveStagedAny : Bool                    -- what git add -p actually left staged
  hasStagedResult : Except String Bool           -- git diff --cached --name-only check
  recentCommitsResult : Except String String     -- getRecentCommits
  buildInputResult : Except String String        -- payload assembly (status/diffstat/diff)
  cacheLookupResult : Except String (Option PipelineMessage) -- getCachedMessage
  detectedScope : Option String                  -- detectMonorepoScope (its IO is caught)
  generateResult : Except String PipelineMessage -- generateMessage (remote call)
  cacheWriteResult : Except String Unit          -- setCachedMessage
  restoreResult : Except String Unit             -- restoreStagedFiles
  promptEditResult : Option PipelineMessage      -- promptMessageEdit (none = cancel)
  undoAfterCancel : Bool                         -- "Unstage selected files?" after cancel
  continueAnyway : Bool                          -- "Continue anyway?" after failed re-validation
  proceedCommit : Bool                           -- "Create commit now?"
  undoAfterDecline : Bool                        -- "Unstage selected files?" after decline
  commitResult : Except String Unit              -- git commit
deriving Repr

/-- Result of a `commitFlow` run: the returned/thrown value, and whether the
group's files are still staged by this flow when control leaves it. -/
structure CFOut where
  result : Except String Bool
  staged : Bool
deriving Repr

/-- The catch block of the generation `try` (src/cli.ts lines 333-338):
unless dry-run, unstage, then rethrow; a failing `restore` replaces the
error and leaves the files staged. -/
def rollbackThenThrow (o : CFOptions) (env : CFEnv) (staged : Bool) (e : String) : CFOut :=
  if !o.dryRun then
    match env.restoreResult with
    | .error e2 => ⟨.error e2, staged⟩
    | .ok _ => ⟨.error e, false⟩
  else ⟨.error e, staged⟩

/-- `commitFlow` after a suggestion is in hand (validation warnings print
only; then the edit prompt, re-validation, confirmation and commit). -/
def commitFlowAfterSuggestion (o : CFOptions) (env : CFEnv) (staged : Bool)
    (sug : PipelineMessage) : CFOut :=
  let edited := if o.auto then some sug else env.promptEditResult
  match edited with
  | none =>
    if !o.dryRun then
      if env.undoAfterCancel then
        match env.restoreResult with
        | .error e => ⟨.error e, staged⟩
        | .ok _ => ⟨.ok false, false⟩
      else ⟨.ok false, staged⟩
    else ⟨.ok false, staged⟩
  | some ed =>
    if ed.subject != sug.subject &&
        !(validateConventionalCommit ed.subject).valid && !env.continueAnyway then
      ⟨.ok false, staged⟩
    else if o.dryRun then ⟨.ok true, staged⟩
    else if !(o.auto || env.proceedCommit) then
      if env.undoAfterDecline then
        match env.restoreResult with
        | .error e => ⟨.error e, staged⟩
        | .ok _ => ⟨.ok false, false⟩
      else ⟨.ok false, staged⟩
    else
      match env.commitResult with
      | .error e => ⟨.error e, staged⟩
      | .ok _ => ⟨.ok true, false⟩

/--
The Generating phase and everything after it (src/cli.ts lines 316-392).
Only `generateMessage` and `setCachedMessage` sit inside the `try` whose
catch runs `restoreStagedFiles`; `getRecentCommits`, `buildCommitInput` and
`getCachedMessage` run before it, so their failures propagate as-is.
-/
def commitFlowRest (o : CFOptions) (env : CFEnv) (staged : Bool) : CFOut :=
  match env.recentCommitsResult with
  | .error e => ⟨.error e, staged⟩
  | .ok _ =>
    match env.buildInputResult with
    | .error e => ⟨.error e, staged⟩
    | .ok _ =>
      match env.cacheLookupResult with
      | .error e => ⟨.error e, staged⟩
      | .ok cached =>
        match cached, o.scopeOverride with
        | some m, none => commitFlowAfterSuggestion o env staged m
        | _, _ =>
          match env.generateResult with
          | .error e => rollbackThenThrow o env staged e
          | .ok sug =>
            match env.cacheWriteResult with
            | .error e => rollbackThenThrow o env staged e
            | .ok _ => commitFlowAfterSuggestion o env staged sug

/-- `commitFlow` (src/cli.ts lines 298-392). -/
def commitFlow (files : List String) (o : CFOptions) (env : CFEnv) : CFOut :=
  if files.isEmpty then ⟨.ok false, false⟩
  else if !o.dryRun then
    if o.useHunks then
      match env.addFilesInteractiveResult with
      | .error e => ⟨.error e, env.interactiveStagedAny⟩
      | .ok _ =>
        match env.hasStagedResult with
        | .error e => ⟨.error e, env.interactiveStagedAny⟩
        | .ok b => if !b then ⟨.ok false, false⟩ else commitFlowRest o env true
    else
      match env.addFilesResult with
      | .error e => ⟨.error e, false⟩
      | .ok _ => commitFlowRest o env true
  else commitFlowRest o env false

/-- Options of a plain run: no hunk staging, no dry-run, no auto-accept, no
scope override. -/
def plainOpts : CFOptions := ⟨false, false, false, none⟩

/-- An environment in which every external interaction succeeds; the
concrete runs below override single fields of it. -/
def baseEnv : CFEnv where
  addFilesResult := Except.ok ()
  addFilesInteractiveResult := Except.ok ()
  interactiveStagedAny := false
  hasStagedResult := Except.ok true
  recentCommitsResult := Except.ok "log"
  buildInputResult := Except.ok "payload"
  cacheLookupResult := Except.ok none
  detectedScope := none
  generateResult := Except.ok ⟨"feat: x", none⟩
  cacheWriteResult := Except.ok ()
  restoreResult := Except.ok ()
  promptEditResult := some ⟨"feat: x", none⟩
  undoAfterCancel := true
  continueAnyway := true
  proceedCommit := true
  undoAfterDecline := true
  commitResult := Except.ok ()

/-! ## Helper lemmas: substrings and joins -/

theorem strToList_append (a b : String) : (a ++ b).toList = a.toList ++ b.toList := rfl

theorem listPrefixOf_iff (p : List Char) : ∀ s : List Char,
    listPrefixOf p s = true ↔ ∃ t, s = p ++ t := by
  induction p with
  | nil =>
    intro s
    constructor
    · intro _; exact ⟨s, rfl⟩
    · intro _; rfl
  | cons a as ih =>
    intro s
    cases s with
    | nil =>
      rw [show listPrefixOf (a :: as) [] = false from rfl]
      simp
    | cons b bs =>
      rw [show listPrefixOf (a :: as) (b :: bs) = (a == b && listPrefixOf as bs) from rfl,
        Bool.and_eq_true, beq_iff_eq, ih]
      constructor
      · rintro ⟨rfl, t, rfl⟩; exact ⟨t, rfl⟩
      · rintro ⟨t, ht⟩
        rw [List.cons_append] at ht
        injection ht with h1 h2
        exact ⟨h1.symm, t, h2⟩

theorem listSubstr_iff (p : List Char) : ∀ s : List Char,
    listSubstr p s = true ↔ ∃ l r, s = l ++ (p ++ r) := by
  intro s
  induction s with
  | nil =>
    rw [show listSubstr p [] = p.isEmpty from rfl]
    cases p with
    | nil => simp
    | cons a as => simp
  | cons b bs ih =>
    rw [show listSubstr p (b :: bs) = (listPrefixOf p (b :: bs) || listSubstr p bs) from rfl,
      Bool.or_eq_true, listPrefixOf_iff, ih]
    constructor
    · rintro (⟨t, ht⟩ | ⟨l, r, hr⟩)
      · exact ⟨[], t, by simpa using ht⟩
      · exact ⟨b :: l, r, by simp [hr]⟩
    · rintro ⟨l, r, hl⟩
      cases l with
      | nil => exact Or.inl ⟨r, by simpa using hl⟩
      | cons x xs =>
        rw [List.cons_append] at hl
        injection hl with h1 h2
        exact Or.inr ⟨xs, r, h2⟩

theorem strIncludes_iff (s pat : String) :
    strIncludes s pat = true ↔ ∃ l r : List Char, s.toList = l ++ (pat.toList ++ r) :=
  listSubstr_iff pat.toList s.toList

theorem strIncludes_trans (a b c : String) (h1 : strIncludes a b = true)
    (h2 : strIncludes b c = true) : strIncludes a c = true := by
  rw [strIncludes_iff] at h1 h2 ⊢
  obtain ⟨l1, r1, e1⟩ := h1
  obtain ⟨l2, r2, e2⟩ := h2
  exact ⟨l1 ++ l2, r2 ++ r1, by rw [e1, e2]; simp⟩

theorem joinSep_singleton (sep m : String) : joinSep sep [m] = m := rfl

theorem joinSep_cons_of_ne_nil (sep a : String) (rest : List String) (h : rest ≠ []) :
    joinSep sep (a :: rest) = a ++ sep ++ joinSep sep rest := by
  cases rest with
  | nil => exact absurd rfl h
  | cons b bs => rfl

theorem joinSep_split (sep : String) :
    ∀ (l : List String) (m : String) (r : List String),
      ∃ pre post : List Char,
        (joinSep sep (l ++ m :: r)).toList = pre ++ (m.toList ++ post) := by
  intro l
  induction l with
  | nil =>
    intro m r
    cases r with
    | nil => exact ⟨[], [], by rw [List.nil_append, joinSep_singleton]; simp⟩
    | cons b bs =>
      refine ⟨[], (sep ++ joinSep sep (b :: bs)).toList, ?_⟩
      rw [List.nil_append,
        joinSep_cons_of_ne_nil sep m (b :: bs) (by simp), List.nil_append]
      simp [strToList_append, List.append_assoc]
  | cons a as ih =>
    intro m r
    obtain ⟨pre, post, h⟩ := ih m r
    rw [List.cons_append,
      joinSep_cons_of_ne_nil sep a (as ++ m :: r) (by cases as <;> simp)]
    exact ⟨(a ++ sep).toList ++ pre, post, by
      simp only [strToList_append, h, List.append_assoc]⟩

theorem strIncludes_joinSep (sep : String) (parts : List String) (m : String)
    (hm : m ∈ parts) : strIncludes (joinSep sep parts) m = true := by
  obtain ⟨l, r, rfl⟩ := List.append_of_mem hm
  obtain ⟨pre, post, h⟩ := joinSep_split sep l m r
  rw [strIncludes_iff]
  exact ⟨pre, post, h⟩

theorem strIncludes_of_toList_eq (s mid : String) (pre post : List Char)
    (h : s.toList = pre ++ (mid.toList ++ post)) : strIncludes s mid = true := by
  rw [strIncludes_iff]
  exact ⟨pre, post, h⟩

theorem contains_iff (l : List String) (x : String) : l.contains x = true ↔ x ∈ l :=
  List.elem_iff

theorem mk_ne_empty (l : List Char) (h : l ≠ []) : String.mk l ≠ "" := by
  intro he
  apply h
  have h2 : (String.mk l).toList = ("" : String).toList := by rw [he]
  simpa using h2

theorem data_append_cons (a b : String) (c : Char) (cs : List Char) (h : a.data = c :: cs) :
    (a ++ b).data = c :: (cs ++ b.data) := by
  rw [String.data_append, h, List.cons_append]

/-! ## Lemmas about the commit grammar -/

theorem matchDescription_ne_nil (r d : List Char) (h : matchDescription r = some d) :
    d ≠ [] := by
  simp only [matchDescription] at h
  split at h
  · split at h
    · split at h
      · exact absurd h (by simp)
      · injection h with h1
        subst h1
        simp
    · exact absurd h (by simp)
  · split at h
    · exact absurd h (by simp)
    · injection h with h1
      subst h1
      rename_i hrest _
      intro hnil
      rw [hnil] at hrest
      simp at hrest

theorem matchAfterScope_description_ne (ty : List Char) (scope : Option (List Char))
    (r : List Char) (m : CommitMatch) (h : matchAfterScope ty scope r = some m) :
    m.description ≠ "" := by
  simp only [matchAfterScope] at h
  split at h
  · rename_i r3 heq
    split at h
    · rename_i d hd
      injection h with h1
      subst h1
      exact mk_ne_empty d (matchDescription_ne_nil r3 d hd)
    · exact absurd h (by simp)
  · exact absurd h (by simp)

theorem commitMatch_description_ne (subject : String) (m : CommitMatch)
    (h : commitMatch subject = some m) : m.description ≠ "" := by
  simp only [commitMatch] at h
  split at h
  · exact absurd h (by simp)
  · split at h
    · split at h
      · exact matchAfterScope_description_ne _ _ _ m h
      · exact absurd h (by simp)
    · exact matchAfterScope_description_ne _ _ _ m h

theorem invalid_type_err_ne (t : String) :
    ¬ ("Description is required" =
        "Invalid type \"" ++ t ++ "\". Valid: " ++ joinSep ", " VALID_TYPES) := by
  intro h
  have h1 : ("Invalid type \"" ++ t).data =
      'I' :: (("nvalid type \"" : String).data ++ t.data) :=
    data_append_cons _ _ _ _ rfl
  have h2 := data_append_cons ("Invalid type \"" ++ t) "\". Valid: " _ _ h1
  have h3 := data_append_cons ("Invalid type \"" ++ t ++ "\". Valid: ")
    (joinSep ", " VALID_TYPES) _ _ h2
  rw [← h] at h3
  have h4 : ("Description is required" : String).data =
      'D' :: ("escription is required" : String).data := rfl
  rw [h4] at h3
  injection h3 with h5 _
  exact absurd h5 (by decide)

theorem subject_too_long_err_ne (n : Nat) :
    ¬ ("Description is required" =
        "Subject too long (" ++ toString n ++ "/72 chars)") := by
  intro h
  have h1 : ("Subject too long (" ++ toString n).data =
      'S' :: (("ubject too long (" : String).data ++ (toString n).data) :=
    data_append_cons _ _ _ _ rfl
  have h2 := data_append_cons ("Subject too long (" ++ toString n) "/72 chars)" _ _ h1
  rw [← h] at h2
  have h4 : ("Description is required" : String).data =
      'D' :: ("escription is required" : String).data := rfl
  rw [h4] at h2
  injection h2 with h5 _
  exact absurd h5 (by decide)

/-! ## Claim theorems: validator (C7, C9) and generator parsing (C10) -/

/-- C7: every subject that fails the grammar `type(scope)?!?: description`
short-circuits `validateConventionalCommit` to exactly the single
"invalid format" error, skipping all finer checks; in particular
`"Fix bug."` fails the grammar and yields only that error, while
`"feat(core): add cache"` is valid with no errors. -/
theorem C7_invalid_format_short_circuit :
    (∀ subject : String, commitMatch subject = none →
      validateConventionalCommit subject =
        ⟨false, ["Invalid format. Expected: type(scope): description"]⟩)
    ∧ commitMatch "Fix bug." = none
    ∧ validateConventionalCommit "Fix bug." =
        ⟨false, ["Invalid format. Expected: type(scope): description"]⟩
    ∧ validateConventionalCommit "feat(core): add cache" = ⟨true, []⟩ := by
  refine ⟨fun s h => ?_, by decide, by decide, by decide⟩
  simp only [validateConventionalCommit, h]

/-- Witness for C7 at the concrete subject `"Fix bug."`. -/
theorem C7_invalid_format_short_circuit_witness :
    validateConventionalCommit "Fix bug." =
      ⟨false, ["Invalid format. Expected: type(scope): description"]⟩ :=
  C7_invalid_format_short_circuit.1 "Fix bug." (by decide)

/-- C9: the description captured by `COMMIT_REGEX` is never empty (the group
is `(.+)`), so the "Description is required" branch is unreachable, and the
whitespace-only subject `"feat: "` (regex backtracking makes `" "` the
description) is reported valid with no errors. -/
theorem C9_description_required_unreachable :
    (∀ (subject : String) (m : CommitMatch),
      commitMatch subject = some m → m.description ≠ "")
    ∧ (∀ subject : String,
        "Description is required" ∉ (validateConventionalCommit subject).errors)
    ∧ validateConventionalCommit "feat: " = ⟨true, []⟩ := by
  refine ⟨fun s m h => commitMatch_description_ne s m h, fun subject => ?_, by decide⟩
  unfold validateConventionalCommit
  cases h : commitMatch subject with
  | none => simp
  | some m =>
    have hd : m.description ≠ "" := commitMatch_description_ne subject m h
    have hlist : m.description.toList ≠ [] := by
      intro h0
      apply hd
      calc m.description = String.mk m.description.toList := rfl
        _ = String.mk [] := by rw [h0]
        _ = "" := rfl
    intro hmem
    simp only [List.mem_append] at hmem
    rcases hmem with (((h1 | h2) | h3) | h4) | h5
    · revert h1
      split
      · simp
      · simp only [List.mem_singleton]
        exact invalid_type_err_ne m.ctype
    · revert h2
      split
      · simp only [List.mem_singleton]
        exact subject_too_long_err_ne subject.length
      · simp
    · revert h3
      split
      · rename_i hempty
        rw [List.isEmpty_iff] at hempty
        exact absurd hempty hlist
      · simp
    · revert h4
      split
      · simp
      · split
        · simp only [List.mem_singleton]
          intro hcontra
          exact absurd hcontra (by decide)
        · simp
    · revert h5
      split
      · simp only [List.mem_singleton]
        intro hcontra
        exact absurd hcontra (by decide)
      · simp

/-- Witness for C9: the matched description of `"feat: x"` is non-empty. -/
theorem C9_description_required_unreachable_witness :
    CommitMatch.description ⟨"feat", none, false, "x"⟩ ≠ "" :=
  C9_description_required_unreachable.1 "feat: x" ⟨"feat", none, false, "x"⟩ (by decide)

theorem extractJson_subject_ne (text : String) (parsed : Option JsonMsg)
    (m : PipelineMessage) (h : extractJson text parsed = some m) : m.subject ≠ "" := by
  simp only [extractJson] at h
  split at h
  · split at h
    · exact absurd h (by simp)
    · split at h
      · exact absurd h (by simp)
      · split at h
        · exact absurd h (by simp)
        · split at h
          · exact absurd h (by simp)
          · rename_i hne
            injection h with h1
            subst h1
            simpa using hne
  · exact absurd h (by simp)

/-- C10: a JSON reply whose `subject` is the empty string is rejected by the
falsiness check in `extractJson` exactly like a missing subject, producing the
same fatal parse error in `generateCommitMessage`; consequently every message
the generator returns has a non-empty subject. -/
theorem C10_empty_subject_fatal :
    (∀ (text : String) (body : Option String),
      extractJson text (some ⟨some "", body⟩) = none
      ∧ generateCommitMessage (Except.ok text) (some ⟨some "", body⟩) =
          Except.error "Failed to parse OpenAI response."
      ∧ generateCommitMessage (Except.ok text) (some ⟨some "", body⟩) =
          generateCommitMessage (Except.ok text) (some ⟨none, body⟩))
    ∧ (∀ (textResult : Except String String) (parsed : Option JsonMsg)
        (m : PipelineMessage),
        generateCommitMessage textResult parsed = Except.ok m → m.subject ≠ "") := by
  constructor
  · intro text body
    have hnone : extractJson text (some ⟨some "", body⟩) = none := by
      simp only [extractJson]
      split
      · split
        · rfl
        · simp
      · rfl
    have hnone2 : extractJson text (some ⟨none, body⟩) = none := by
      simp only [extractJson]
      split
      · split
        · rfl
        · rfl
      · rfl
    refine ⟨hnone, ?_, ?_⟩
    · simp only [generateCommitMessage, hnone]
    · simp only [generateCommitMessage, hnone, hnone2]
  · intro textResult parsed m h
    cases textResult with
    | error e => exact absurd h (by simp [generateCommitMessage])
    | ok text =>
      simp only [generateCommitMessage] at h
      cases hx : extractJson text parsed with
      | none => rw [hx] at h; exact absurd h (by simp)
      | some m2 =>
        rw [hx] at h
        injection h with h1
        subst h1
        exact extractJson_subject_ne text parsed m2 hx

/-- Witness for C10 at a concrete reply and message. -/
theorem C10_empty_subject_fatal_witness :
    generateCommitMessage (Except.ok "x \x7b\x7d y") (some ⟨some "", none⟩) =
      Except.error "Failed to parse OpenAI response."
    ∧ PipelineMessage.subject ⟨"feat: a", none⟩ ≠ "" :=
  ⟨(C10_empty_subject_fatal.1 "x \x7b\x7d y" none).2.1,
    C10_empty_subject_fatal.2 (Except.ok "x \x7b\x7d y") (some ⟨some "feat: a", none⟩)
      ⟨"feat: a", none⟩ rfl⟩

/-! ## Claim theorems: DiffAssembler (C5, C8) -/

/-- C5: when the unified diff exceeds `2 × cap` characters the payload parts
end with diffstat section followed by the explicit omission note — the patch
body is omitted, the note and the diffstat text appear in the joined payload;
otherwise the patch section carries `truncate patch cap`, which appends the
explicit `"[truncated]"` marker exactly when truncation happens
(`0 < cap < length`, the marker then also appears in the payload) and
returns the patch verbatim when no truncation occurs, so truncation is never
silent. -/
theorem C5_payload_bounding :
    ∀ (files : List String) (status stat patch : String) (cap : Int) (recent : String),
      ((patch.toList.length : Int) > cap * 2 →
        buildCommitInputParts files status stat patch cap recent =
          recentPrefix recent ++ (buildBaseParts files status ++
            ["\nDiffstat:", if stat == "" then "(empty)" else stat,
             "\n[patch omitted - too large, using diffstat only]"]) ∧
        strIncludes (buildCommitInput files status stat patch cap recent)
          "[patch omitted - too large, using diffstat only]" = true ∧
        strIncludes (buildCommitInput files status stat patch cap recent)
          (if stat == "" then "(empty)" else stat) = true)
      ∧ (¬ ((patch.toList.length : Int) > cap * 2) →
        buildCommitInputParts files status stat patch cap recent =
          recentPrefix recent ++ (buildBaseParts files status ++
            ["\nDiffstat:", if stat == "" then "(empty)" else stat,
             "\nPatch:", truncate patch cap]) ∧
        (0 < cap → cap < (patch.toList.length : Int) →
          truncate patch cap = String.mk (patch.toList.take cap.toNat) ++ "\n[truncated]" ∧
          strIncludes (buildCommitInput files status stat patch cap recent)
            "[truncated]" = true) ∧
        ((patch.toList.length : Int) ≤ cap ∨ cap ≤ 0 → truncate patch cap = patch)) := by
  intro files status stat patch cap recent
  constructor
  · intro h
    have hparts : buildCommitInputParts files status stat patch cap recent =
        recentPrefix recent ++ (buildBaseParts files status ++
          ["\nDiffstat:", if stat == "" then "(empty)" else stat,
           "\n[patch omitted - too large, using diffstat only]"]) := by
      simp [buildCommitInputParts, h, show (patch.length : Int) > cap * 2 from h,
        List.append_assoc]
    refine ⟨hparts, ?_, ?_⟩
    · have hmem : "\n[patch omitted - too large, using diffstat only]" ∈
          buildCommitInputParts files status stat patch cap recent := by
        rw [hparts]; simp
      have hout := strIncludes_joinSep "\n" _ _ hmem
      have hsub : strIncludes "\n[patch omitted - too large, using diffstat only]"
          "[patch omitted - too large, using diffstat only]" = true :=
        strIncludes_of_toList_eq _ _ ['\n'] [] (by decide)
      exact strIncludes_trans _ _ _ hout hsub
    · have hmem : (if stat == "" then "(empty)" else stat) ∈
          buildCommitInputParts files status stat patch cap recent := by
        rw [hparts]; simp
      exact strIncludes_joinSep "\n" _ _ hmem
  · intro h
    have hparts : buildCommitInputParts files status stat patch cap recent =
        recentPrefix recent ++ (buildBaseParts files status ++
          ["\nDiffstat:", if stat == "" then "(empty)" else stat,
           "\nPatch:", truncate patch cap]) := by
      simp [buildCommitInputParts, h, show ¬ ((patch.length : Int) > cap * 2) from h,
        List.append_assoc]
    refine ⟨hparts, ?_, ?_⟩
    · intro h0 hlt
      have htr : truncate patch cap =
          String.mk (patch.toList.take cap.toNat) ++ "\n[truncated]" := by
        unfold truncate
        rw [if_neg (by omega), if_neg (by omega)]
      refine ⟨htr, ?_⟩
      have hmem : truncate patch cap ∈
          buildCommitInputParts files status stat patch cap recent := by
        rw [hparts]; simp
      have hout := strIncludes_joinSep "\n" _ _ hmem
      rw [htr] at hout
      have hsub : strIncludes (String.mk (patch.toList.take cap.toNat) ++ "\n[truncated]")
          "[truncated]" = true := by
        apply strIncludes_of_toList_eq _ _ (patch.toList.take cap.toNat ++ ['\n']) []
        rw [strToList_append,
          show ("\n[truncated]" : String).toList =
            '\n' :: ("[truncated]" : String).toList from rfl]
        simp
      exact strIncludes_trans _ _ _ hout hsub
    · intro hle
      unfold truncate
      rcases hle with hle | hle
      · by_cases hc : cap ≤ 0
        · rw [if_pos hc]
        · rw [if_neg hc, if_pos hle]
      · rw [if_pos hle]

/-- Witness for C5: a six-character patch with cap 2 is omitted and the
omission note appears in the payload. -/
theorem C5_payload_bounding_witness :
    strIncludes (buildCommitInput [] "s" "st" "abcdef" 2 "")
      "[patch omitted - too large, using diffstat only]" = true :=
  (((C5_payload_bounding [] "s" "st" "abcdef" 2 "").1 (by decide)).2).1

/-- C8 counterexample: with 7 ignored files the note carries the total count
`(7)` and an ellipsis, but the remainder count beyond the 5 listed names —
which would be `2` — appears nowhere in the payload. -/
theorem C8_counterexample :
    ((["a.png", "b.png", "c.png", "d.png", "e.png", "f.png", "g.png"].filter
        shouldIgnoreFile).length = 7)
    ∧ strIncludes
        (buildCommitInput ["a.png", "b.png", "c.png", "d.png", "e.png", "f.png", "g.png"]
          "" "" "" 100 "") "2" = false
    ∧ strIncludes
        (buildCommitInput ["a.png", "b.png", "c.png", "d.png", "e.png", "f.png", "g.png"]
          "" "" "" 100 "") "(7)" = true
    ∧ strIncludes
        (ignoredNote ["a.png", "b.png", "c.png", "d.png", "e.png", "f.png", "g.png"])
        "f.png" = false
    ∧ strIncludes
        (buildCommitInput ["a.png", "b.png", "c.png", "d.png", "e.png", "f.png", "g.png"]
          "" "M a.png" "" 100 "") "..." = true := by
  refine ⟨by decide, by decide, by decide, by decide, by decide⟩

/-- C8 (amended): the payload contains the ignored-files note, which lists at
most the first 5 ignored paths together with the TOTAL count of ignored paths
(not the count of the remainder) and appends an ellipsis marker exactly when
more than 5 exist. -/
theorem C8_ignored_note_amended :
    ∀ (files : List String) (status stat patch : String) (cap : Int) (recent : String),
      files.filter shouldIgnoreFile ≠ [] →
      ignoredNote (files.filter shouldIgnoreFile) ∈
          buildCommitInputParts files status stat patch cap recent
      ∧ strIncludes (buildCommitInput files status stat patch cap recent)
          (ignoredNote (files.filter shouldIgnoreFile)) = true
      ∧ ignoredNote (files.filter shouldIgnoreFile) =
          "\nIgnored from diff (" ++ toString (files.filter shouldIgnoreFile).length ++
            "): " ++ joinSep ", " ((files.filter shouldIgnoreFile).take 5) ++
            (if (files.filter shouldIgnoreFile).length > 5 then "..." else "")
      ∧ ((files.filter shouldIgnoreFile).take 5).length ≤ 5 := by
  intro files status stat patch cap recent hne
  have hlen : 0 < (files.filter shouldIgnoreFile).length := List.length_pos.mpr hne
  have hmem : ignoredNote (files.filter shouldIgnoreFile) ∈
      buildCommitInputParts files status stat patch cap recent := by
    simp only [buildCommitInputParts, buildBaseParts, if_pos hlen]
    split <;> simp
  refine ⟨hmem, strIncludes_joinSep "\n" _ _ hmem, rfl, ?_⟩
  rw [List.length_take]
  exact min_le_left _ _

/-- Witness for C8 (amended) at a single concrete ignored file. -/
theorem C8_ignored_note_amended_witness :
    strIncludes (buildCommitInput ["x.png"] "" "" "" 1 "")
      (ignoredNote (["x.png"].filter shouldIgnoreFile)) = true :=
  ((C8_ignored_note_amended ["x.png"] "" "" "" 1 "" (by decide)).2).1

/-! ## Claim theorems: Grouper (C4) -/

theorem sanitizeGroupsAux_spec (allowed : List String) :
    ∀ (groups : List Group) (seen : List String) (g : Group),
      g ∈ sanitizeGroupsAux allowed groups seen →
      g.files ≠ [] ∧ g.name ≠ "" ∧ ∀ f ∈ g.files, f ∈ allowed ∧ f ∉ seen := by
  intro groups
  induction groups with
  | nil =>
    intro seen g hg
    simp [sanitizeGroupsAux] at hg
  | cons g0 rest ih =>
    intro seen g hg
    simp only [sanitizeGroupsAux] at hg
    split at hg
    · exact ih seen g hg
    · rcases List.mem_cons.mp hg with hEq | hMem
      · subst hEq
        refine ⟨?_, ?_, ?_⟩
        · rename_i hne
          simpa [List.isEmpty_iff] using hne
        · show (if g0.name == "" then "group" else g0.name) ≠ ""
          split
          · decide
          · rename_i hb
            simpa [beq_iff_eq] using hb
        · intro f hf
          rw [List.mem_filter] at hf
          obtain ⟨-, hcond⟩ := hf
          rw [Bool.and_eq_true, Bool.not_eq_true'] at hcond
          refine ⟨(contains_iff allowed f).mp hcond.1, fun hc => ?_⟩
          have h2 := (contains_iff seen f).mpr hc
          rw [hcond.2] at h2
          exact Bool.noConfusion h2
      · obtain ⟨h1, h2, h3⟩ := ih _ g hMem
        exact ⟨h1, h2, fun f hf =>
          ⟨(h3 f hf).1, fun hc => (h3 f hf).2 (List.mem_append.mpr (Or.inl hc))⟩⟩

theorem sanitizeGroupsAux_pairwise (allowed : List String) :
    ∀ (groups : List Group) (seen : List String),
      (sanitizeGroupsAux allowed groups seen).Pairwise groupsDisjoint := by
  intro groups
  induction groups with
  | nil => intro seen; simp [sanitizeGroupsAux]
  | cons g0 rest ih =>
    intro seen
    simp only [sanitizeGroupsAux]
    split
    · exact ih seen
    · rw [List.pairwise_cons]
      refine ⟨?_, ih _⟩
      intro b hb f hf hfb
      have hspec := (sanitizeGroupsAux_spec allowed rest _ b hb).2.2 f hfb
      exact hspec.2 (List.mem_append.mpr (Or.inr hf))

theorem upsert_key_mem (k v : String) :
    ∀ (m : List (String × List String)) (e : String × List String),
      e ∈ upsert m k v → e.1 = k ∨ e.1 ∈ m.map Prod.fst := by
  intro m
  induction m with
  | nil =>
    intro e he
    simp only [upsert, List.mem_singleton] at he
    subst he
    exact Or.inl rfl
  | cons hd tl ih =>
    obtain ⟨k1, l⟩ := hd
    intro e he
    simp only [upsert] at he
    split at he
    · rcases List.mem_cons.mp he with rfl | hm
      · exact Or.inr (by simp)
      · refine Or.inr ?_
        rw [List.map_cons]
        exact List.mem_cons_of_mem _ (List.mem_map_of_mem _ hm)
    · rcases List.mem_cons.mp he with rfl | hm
      · exact Or.inr (by simp)
      · rcases ih e hm with h | h
        · exact Or.inl h
        · exact Or.inr (by rw [List.map_cons]; exact List.mem_cons_of_mem _ h)

theorem upsert_good (k v : String) (hk : topSegment v = k) :
    ∀ (m : List (String × List String)), dirMapGood m → dirMapGood (upsert m k v) := by
  intro m
  induction m with
  | nil =>
    intro _
    constructor
    · simp [upsert]
    · intro e he
      simp only [upsert, List.mem_singleton] at he
      subst he
      exact ⟨by simp, by intro p hp; simp at hp; subst hp; exact hk⟩
  | cons hd tl ih =>
    obtain ⟨k1, l⟩ := hd
    intro hgood
    obtain ⟨hpw, hent⟩ := hgood
    rw [List.pairwise_cons] at hpw
    simp only [upsert]
    split
    · rename_i hbeq
      constructor
      · rw [List.pairwise_cons]
        exact ⟨hpw.1, hpw.2⟩
      · intro e he
        rcases List.mem_cons.mp he with rfl | hm
        · refine ⟨by simp, ?_⟩
          intro p hp
          rcases List.mem_append.mp hp with hp | hp
          · exact (hent (k1, l) (by simp)).2 p hp
          · simp only [List.mem_singleton] at hp
            subst hp
            rw [hk]
            exact (beq_iff_eq.mp hbeq).symm
        · exact hent e (List.mem_cons_of_mem _ hm)
    · rename_i hbeq
      have hk1k : k1 ≠ k := by simpa [beq_iff_eq] using hbeq
      have ihgood := ih ⟨hpw.2, fun e he => hent e (List.mem_cons_of_mem _ he)⟩
      constructor
      · rw [List.pairwise_cons]
        refine ⟨?_, ihgood.1⟩
        intro e he
        rcases upsert_key_mem k v tl e he with h | h
        · rw [h]
          exact hk1k
        · obtain ⟨a, ha, haeq⟩ := List.mem_map.mp h
          rw [← haeq]
          exact hpw.1 a ha
      · intro e he
        rcases List.mem_cons.mp he with rfl | hm
        · exact hent (k1, l) (by simp)
        · exact ihgood.2 e hm

theorem foldl_upsert_good (files : List FileEntry) :
    ∀ m, dirMapGood m →
      dirMapGood (files.foldl (fun acc f => upsert acc (topSegment f.path) f.path) m) := by
  induction files with
  | nil => intro m h; exact h
  | cons f fs ih =>
    intro m h
    exact ih _ (upsert_good (topSegment f.path) f.path rfl m h)

/-- C4: `sanitizeGroups` yields pairwise-disjoint groups (duplicates across
groups dropped first-seen), all non-empty with a non-empty (defaulted) name,
and every kept file lies in `allowed`; the structural fallback
`groupByDirectory` likewise partitions its input into non-empty,
pairwise-disjoint groups. -/
theorem C4_partition_invariant :
    (∀ (groups : List Group) (allowed : List String),
      (sanitizeGroups groups allowed).Pairwise groupsDisjoint
      ∧ ∀ g ∈ sanitizeGroups groups allowed,
          g.files ≠ [] ∧ g.name ≠ "" ∧ ∀ f ∈ g.files, f ∈ allowed)
    ∧ (∀ files : List FileEntry,
        (groupByDirectory files).Pairwise groupsDisjoint
        ∧ ∀ g ∈ groupByDirectory files, g.files ≠ []) := by
  constructor
  · intro groups allowed
    refine ⟨sanitizeGroupsAux_pairwise allowed groups [], ?_⟩
    intro g hg
    obtain ⟨h1, h2, h3⟩ := sanitizeGroupsAux_spec allowed groups [] g hg
    exact ⟨h1, h2, fun f hf => (h3 f hf).1⟩
  · intro files
    have h := foldl_upsert_good files [] ⟨List.Pairwise.nil, by simp⟩
    constructor
    · unfold groupByDirectory
      rw [List.pairwise_map]
      refine List.Pairwise.imp_of_mem ?_ h.1
      intro a b ha hb hne fl hfa hfb
      have hta := (h.2 a ha).2 fl hfa
      have htb := (h.2 b hb).2 fl hfb
      exact hne (hta ▸ htb ▸ rfl)
    · intro g hg
      unfold groupByDirectory at hg
      obtain ⟨e, he, rfl⟩ := List.mem_map.mp hg
      exact (h.2 e he).1

/-- Witness for C4: the sanitized second group of a concrete overlap-heavy
input is non-empty. -/
theorem C4_partition_invariant_witness :
    (Group.mk "g2" ["c"]).files ≠ [] :=
  ((C4_partition_invariant.1 [⟨"", ["a", "a", "b", "x"]⟩, ⟨"g2", ["b", "c"]⟩]
      ["a", "b", "c"]).2 ⟨"g2", ["c"]⟩ (by decide)).1

/-! ## Claim theorems: MessageClient (C3, C6) -/

theorem requestTextLoop_attempts_le (outcomes : Nat → AttemptOutcome) (timeout : Nat) :
    ∀ (remaining attempt : Nat) (lastError : Option String),
      (requestTextLoop outcomes timeout attempt remaining lastError).2 ≤ remaining := by
  intro remaining
  induction remaining with
  | zero =>
    intro attempt lastError
    simp [requestTextLoop]
  | succ n ih =>
    intro attempt lastError
    cases ho : outcomes attempt with
    | httpOk t => simp [requestTextLoop, ho]
    | httpErr status errText =>
      simp only [requestTextLoop, ho]
      split
      · split
        · simp
        · have := ih (attempt + 1) (some (httpErrMsg status errText))
          simp
          omega
      · have := ih (attempt + 1) (some (httpErrMsg status errText))
        simp
        omega
    | abortTimeout =>
      simp only [requestTextLoop, ho]
      split
      · simp
      · have := ih (attempt + 1) (some (timeoutMsg timeout))
        simp
        omega
    | fetchErr m =>
      simp only [requestTextLoop, ho]
      split
      · simp
      · have := ih (attempt + 1) (some m)
        simp
        omega

theorem requestTextLoop_retry_step (outcomes : Nat → AttemptOutcome) (timeout : Nat)
    (attempt remaining : Nat) (lastError : Option String)
    (hr : isRetryableOutcome timeout (outcomes attempt) = true) :
    requestTextLoop outcomes timeout attempt (remaining + 1) lastError =
      ((requestTextLoop outcomes timeout (attempt + 1) remaining
          (some (attemptMsg timeout (outcomes attempt)))).1,
       (requestTextLoop outcomes timeout (attempt + 1) remaining
          (some (attemptMsg timeout (outcomes attempt)))).2 + 1) := by
  cases ho : outcomes attempt with
  | httpOk t =>
    rw [ho] at hr
    simp [isRetryableOutcome] at hr
  | httpErr status errText =>
    rw [ho] at hr
    simp only [isRetryableOutcome] at hr
    simp only [requestTextLoop, ho, attemptMsg]
    by_cases hcls : (status != 429 && status < 500) = true
    · rw [if_pos hcls] at hr
      rw [Bool.not_eq_true'] at hr
      rw [if_pos hcls, if_neg (by simp [hr])]
    · rw [if_neg hcls]
  | abortTimeout =>
    rw [ho] at hr
    simp only [isRetryableOutcome, Bool.not_eq_true'] at hr
    simp only [requestTextLoop, ho, attemptMsg]
    rw [if_neg (by simp [hr])]
  | fetchErr m =>
    rw [ho] at hr
    simp only [isRetryableOutcome, Bool.not_eq_true'] at hr
    simp only [requestTextLoop, ho, attemptMsg]
    rw [if_neg (by simp [hr])]

theorem requestTextLoop_exhaust (outcomes : Nat → AttemptOutcome) (timeout : Nat) :
    ∀ (n attempt : Nat) (lastError : Option String),
      (∀ i, attempt ≤ i → i < attempt + (n + 1) →
        isRetryableOutcome timeout (outcomes i) = true) →
      requestTextLoop outcomes timeout attempt (n + 1) lastError =
        (Except.error (attemptMsg timeout (outcomes (attempt + n))), n + 1) := by
  intro n
  induction n with
  | zero =>
    intro attempt lastError hall
    rw [requestTextLoop_retry_step outcomes timeout attempt 0 lastError
      (hall attempt (Nat.le_refl _) (by omega))]
    simp [requestTextLoop]
  | succ m ih =>
    intro attempt lastError hall
    rw [requestTextLoop_retry_step outcomes timeout attempt (m + 1) lastError
      (hall attempt (Nat.le_refl _) (by omega))]
    rw [ih (attempt + 1) (some (attemptMsg timeout (outcomes attempt)))
      (fun i h1 h2 => hall i (by omega) (by omega))]
    have harith : attempt + 1 + m = attempt + (m + 1) := by omega
    rw [harith]

/-- C6: `requestText` performs at most `maxRetries` network attempts; the
backoff delay after failed attempt `i` equals
`min(baseDelay · 2^i · jitter, maxDelay)` with `jitter = rand·0.3 + 0.85 ∈
[0.85, 1.15)` for `rand ∈ [0, 1)`, and therefore never exceeds `maxDelay`;
when every attempt fails retryably, the loop exhausts all `maxRetries`
attempts and raises the last observed error. -/
theorem C6_retry_backoff :
    (∀ (outcomes : Nat → AttemptOutcome) (timeout maxRetries : Nat),
      (requestText outcomes timeout maxRetries).2 ≤ maxRetries)
    ∧ (∀ (baseDelay maxDelay rand : ℚ) (attempt : Nat), 0 ≤ rand → rand < 1 →
        (17 / 20 ≤ jitterOf rand ∧ jitterOf rand < 23 / 20)
        ∧ backoffDelay baseDelay maxDelay attempt rand =
            min (baseDelay * 2 ^ attempt * jitterOf rand) maxDelay
        ∧ backoffDelay baseDelay maxDelay attempt rand ≤ maxDelay)
    ∧ (∀ (outcomes : Nat → AttemptOutcome) (timeout maxRetries : Nat),
        0 < maxRetries →
        (∀ i, i < maxRetries → isRetryableOutcome timeout (outcomes i) = true) →
        requestText outcomes timeout maxRetries =
          (Except.error (attemptMsg timeout (outcomes (maxRetries - 1))), maxRetries)) := by
  refine ⟨?_, ?_, ?_⟩
  · intro outcomes timeout maxRetries
    exact requestTextLoop_attempts_le outcomes timeout maxRetries 0 none
  · intro baseDelay maxDelay rand attempt h0 h1
    refine ⟨⟨?_, ?_⟩, rfl, min_le_right _ _⟩
    · unfold jitterOf
      nlinarith
    · unfold jitterOf
      nlinarith
  · intro outcomes timeout maxRetries hpos hall
    cases maxRetries with
    | zero => exact absurd hpos (by omega)
    | succ n =>
      have h := requestTextLoop_exhaust outcomes timeout n 0 none
        (fun i h1 h2 => hall i (by omega))
      simpa [requestText] using h

/-- Witness for C6: three consecutive 503 responses consume exactly the three
allowed attempts and raise the last 503 error; a sample delay is capped. -/
theorem C6_retry_backoff_witness :
    requestText (fun _ => AttemptOutcome.httpErr 503 "Service Unavailable") 60000 3 =
      (Except.error (httpErrMsg 503 "Service Unavailable"), 3)
    ∧ backoffDelay 1000 30000 0 (1 / 2) ≤ 30000 := by
  constructor
  · exact C6_retry_backoff.2.2 (fun _ => AttemptOutcome.httpErr 503 "Service Unavailable")
      60000 3 (by omega) (fun i _ =>
        (by decide :
          isRetryableOutcome 60000 (AttemptOutcome.httpErr 503 "Service Unavailable") = true))
  · exact (C6_retry_backoff.2.1 1000 30000 (1 / 2) 0 (by norm_num) (by norm_num)).2.2

/-- C3: the code's catch-block reclassifies the "fatal 4xx" error it just
threw by substring matching on the message, so a 4xx status whose digits
contain a `5` (such as 415) is retried until all attempts are consumed,
contradicting the immediate abort the classification at the top of the loop
intends (and which a 404 does exhibit). -/
theorem C3_fourxx_retry_leak :
    requestText (fun _ => AttemptOutcome.httpErr 415 "") 60000 3 =
      (Except.error (httpErrMsg 415 ""), 3)
    ∧ isRetryableOutcome 60000 (AttemptOutcome.httpErr 415 "") = true
    ∧ requestText (fun _ => AttemptOutcome.httpErr 404 "Not Found") 60000 3 =
      (Except.error (httpErrMsg 404 "Not Found"), 1)
    ∧ catchFatal (httpErrMsg 404 "Not Found") = true := by
  exact ⟨rfl, by decide, rfl, by decide⟩

/-! ## Claim theorems: CommitOrchestrator (C1, C2) -/

theorem commitFlow_rollback_on_try_error
    (files : List String) (o : CFOptions) (env : CFEnv) (e : String)
    (hf : files ≠ []) (hd : o.dryRun = false)
    (hstage : (o.useHunks = false ∧ env.addFilesResult = Except.ok ()) ∨
      (o.useHunks = true ∧ env.addFilesInteractiveResult = Except.ok () ∧
        env.hasStagedResult = Except.ok true))
    (hr : ∃ r, env.recentCommitsResult = Except.ok r)
    (hb : ∃ i, env.buildInputResult = Except.ok i)
    (hc : ∃ c, env.cacheLookupResult = Except.ok c ∧ (c = none ∨ o.scopeOverride ≠ none))
    (htry : env.generateResult = Except.error e ∨
      ((∃ m, env.generateResult = Except.ok m) ∧ env.cacheWriteResult = Except.error e))
    (hres : env.restoreResult = Except.ok ()) :
    commitFlow files o env = ⟨Except.error e, false⟩ := by
  obtain ⟨r, hr⟩ := hr
  obtain ⟨i, hb⟩ := hb
  obtain ⟨c, hc, hcc⟩ := hc
  have hemp : files.isEmpty = false := by
    rw [Bool.eq_false_iff]
    intro hcontra
    exact hf (List.isEmpty_iff.mp hcontra)
  have hroll : rollbackThenThrow o env true e = ⟨Except.error e, false⟩ := by
    simp [rollbackThenThrow, hd, hres]
  have hgen : (match env.generateResult with
      | Except.error e2 => rollbackThenThrow o env true e2
      | Except.ok sug =>
        match env.cacheWriteResult with
        | Except.error e2 => rollbackThenThrow o env true e2
        | Except.ok _ => commitFlowAfterSuggestion o env true sug) =
      ⟨Except.error e, false⟩ := by
    rcases htry with hge | ⟨⟨m, hgm⟩, hcw⟩
    · rw [hge]
      exact hroll
    · rw [hgm, hcw]
      exact hroll
  have hrest : commitFlowRest o env true = ⟨Except.error e, false⟩ := by
    simp only [commitFlowRest, hr, hb, hc]
    rcases hcc with rfl | hso
    · exact hgen
    · obtain ⟨s, hs⟩ := Option.ne_none_iff_exists'.mp hso
      rw [hs]
      cases c <;> exact hgen
  rcases hstage with ⟨hh, ha⟩ | ⟨hh, ha, hsg⟩
  · simp [commitFlow, hemp, hd, hh, ha, hrest]
  · simp [commitFlow, hemp, hd, hh, ha, hsg, hrest]

theorem commitFlow_no_rollback_before_try
    (files : List String) (o : CFOptions) (env : CFEnv) (e : String)
    (hf : files ≠ []) (hd : o.dryRun = false)
    (hstage : (o.useHunks = false ∧ env.addFilesResult = Except.ok ()) ∨
      (o.useHunks = true ∧ env.addFilesInteractiveResult = Except.ok () ∧
        env.hasStagedResult = Except.ok true))
    (hpre : env.recentCommitsResult = Except.error e ∨
      ((∃ r, env.recentCommitsResult = Except.ok r) ∧
        env.buildInputResult = Except.error e) ∨
      ((∃ r, env.recentCommitsResult = Except.ok r) ∧
        (∃ i, env.buildInputResult = Except.ok i) ∧
        env.cacheLookupResult = Except.error e)) :
    commitFlow files o env = ⟨Except.error e, true⟩ := by
  have hemp : files.isEmpty = false := by
    rw [Bool.eq_false_iff]
    intro hcontra
    exact hf (List.isEmpty_iff.mp hcontra)
  have hrest : commitFlowRest o env true = ⟨Except.error e, true⟩ := by
    rcases hpre with hrc | ⟨⟨r, hr⟩, hbe⟩ | ⟨⟨r, hr⟩, ⟨i, hb⟩, hce⟩
    · simp only [commitFlowRest, hrc]
    · simp only [commitFlowRest, hr, hbe]
    · simp only [commitFlowRest, hr, hb, hce]
  rcases hstage with ⟨hh, ha⟩ | ⟨hh, ha, hsg⟩
  · simp [commitFlow, hemp, hd, hh, ha, hrest]
  · simp [commitFlow, hemp, hd, hh, ha, hsg, hrest]

/-- C1 counterexample: a payload-assembly failure (a `git diff` error inside
`buildCommitInput`) happens before the `try` block, so the error propagates
while the staged files are left staged — no rollback occurs, contrary to the
claim that any Generating-phase failure unstages the group. -/
theorem C1_counterexample :
    (commitFlow ["a.ts"] plainOpts
        { baseEnv with buildInputResult := Except.error "git diff failed" }).staged = true
    ∧ (commitFlow ["a.ts"] plainOpts
        { baseEnv with buildInputResult := Except.error "git diff failed" }).result =
        Except.error "git diff failed" :=
  ⟨rfl, rfl⟩

/-- C1 (amended): in a non-dry-run `commitFlow` with the group staged,
rollback-before-propagation is guaranteed exactly for failures inside the
`try` block — the remote generation call and the cache write (provided the
unstage command itself succeeds); failures of recent-commit retrieval,
payload assembly or cache lookup occur before the `try` and propagate with
the files left staged. -/
theorem C1_generation_rollback :
    (∀ (files : List String) (o : CFOptions) (env : CFEnv) (e : String),
      files ≠ [] → o.dryRun = false →
      ((o.useHunks = false ∧ env.addFilesResult = Except.ok ()) ∨
        (o.useHunks = true ∧ env.addFilesInteractiveResult = Except.ok () ∧
          env.hasStagedResult = Except.ok true)) →
      (∃ r, env.recentCommitsResult = Except.ok r) →
      (∃ i, env.buildInputResult = Except.ok i) →
      (∃ c, env.cacheLookupResult = Except.ok c ∧
        (c = none ∨ o.scopeOverride ≠ none)) →
      (env.generateResult = Except.error e ∨
        ((∃ m, env.generateResult = Except.ok m) ∧
          env.cacheWriteResult = Except.error e)) →
      env.restoreResult = Except.ok () →
      commitFlow files o env = ⟨Except.error e, false⟩)
    ∧ (∀ (files : List String) (o : CFOptions) (env : CFEnv) (e : String),
        files ≠ [] → o.dryRun = false →
        ((o.useHunks = false ∧ env.addFilesResult = Except.ok ()) ∨
          (o.useHunks = true ∧ env.addFilesInteractiveResult = Except.ok () ∧
            env.hasStagedResult = Except.ok true)) →
        (env.recentCommitsResult = Except.error e ∨
          ((∃ r, env.recentCommitsResult = Except.ok r) ∧
            env.buildInputResult = Except.error e) ∨
          ((∃ r, env.recentCommitsResult = Except.ok r) ∧
            (∃ i, env.buildInputResult = Except.ok i) ∧
            env.cacheLookupResult = Except.error e)) →
        commitFlow files o env = ⟨Except.error e, true⟩) :=
  ⟨commitFlow_rollback_on_try_error, commitFlow_no_rollback_before_try⟩

/-- Witness for C1 (amended): a failing generation call on a staged group
leaves nothing staged and propagates the error. -/
theorem C1_generation_rollback_witness :
    commitFlow ["a.ts"] plainOpts { baseEnv with generateResult := Except.error "boom" } =
      ⟨Except.error "boom", false⟩ :=
  C1_generation_rollback.1 ["a.ts"] plainOpts
    { baseEnv with generateResult := Except.error "boom" } "boom"
    (by decide) rfl (Or.inl ⟨rfl, rfl⟩) ⟨"log", rfl⟩ ⟨"payload", rfl⟩
    ⟨none, rfl, Or.inl rfl⟩ (Or.inl rfl) rfl

/-- C2 counterexample: `setCachedMessage` has no try/catch, and the `catch`
in `commitFlow` rethrows after rolling back, so a cache-write failure aborts
the run with the error — while the identical run with a working cache write
commits successfully.  The write failure is therefore not swallowed and the
run is not equivalent to a cache miss. -/
theorem C2_counterexample :
    setCachedMessage (Except.ok "/repo/.git") (Except.ok ()) (Except.error "EACCES") =
      Except.error "EACCES"
    ∧ (commitFlow ["a.ts"] plainOpts
        { baseEnv with cacheWriteResult := Except.error "EACCES" }).result =
        Except.error "EACCES"
    ∧ (commitFlow ["a.ts"] plainOpts baseEnv).result = Except.ok true :=
  ⟨rfl, rfl, rfl⟩

/-- C2 (amended): cache READ failures are swallowed (a failed or unparsable
read degrades to a miss), but a cache PUT I/O failure (mkdir or write) is not:
`setCachedMessage` rejects, and the surrounding pipeline rolls back staging
and aborts with the error instead of proceeding as on a cache miss. -/
theorem C2_cache_failure_semantics :
    (∀ (gitDir : String) (readData : Option String)
        (parsedCache : Option PipelineMessage),
      (readData = none ∨ parsedCache = none) →
      getCachedMessage (Except.ok gitDir) readData parsedCache = Except.ok none)
    ∧ (∀ (gitDir e : String),
        setCachedMessage (Except.ok gitDir) (Except.ok ()) (Except.error e) =
          Except.error e
        ∧ setCachedMessage (Except.ok gitDir) (Except.error e) (Except.ok ()) =
            Except.error e)
    ∧ (∀ (files : List String) (o : CFOptions) (env : CFEnv) (e : String),
        files ≠ [] → o.dryRun = false →
        (o.useHunks = false ∧ env.addFilesResult = Except.ok ()) →
        (∃ r, env.recentCommitsResult = Except.ok r) →
        (∃ i, env.buildInputResult = Except.ok i) →
        (∃ c, env.cacheLookupResult = Except.ok c ∧
          (c = none ∨ o.scopeOverride ≠ none)) →
        (∃ m, env.generateResult = Except.ok m) →
        env.cacheWriteResult = Except.error e →
        env.restoreResult = Except.ok () →
        commitFlow files o env = ⟨Except.error e, false⟩) := by
  refine ⟨?_, ?_, ?_⟩
  · intro gitDir readData parsedCache h
    rcases h with rfl | rfl
    · rfl
    · cases readData <;> rfl
  · intro gitDir e
    exact ⟨rfl, rfl⟩
  · intro files o env e hf hd hstage hr hb hc hgen hcw hres
    exact commitFlow_rollback_on_try_error files o env e hf hd (Or.inl hstage)
      hr hb hc (Or.inr ⟨hgen, hcw⟩) hres

/-- Witness for C2 (amended): a concrete failing cache write aborts the run
after unstaging. -/
theorem C2_cache_failure_semantics_witness :
    commitFlow ["a.ts"] plainOpts { baseEnv with cacheWriteResult := Except.error "EACCES" } =
      ⟨Except.error "EACCES", false⟩ :=
  C2_cache_failure_semantics.2.2 ["a.ts"] plainOpts
    { baseEnv with cacheWriteResult := Except.error "EACCES" } "EACCES"
    (by decide) rfl ⟨rfl, rfl⟩ ⟨"log", rfl⟩ ⟨"payload", rfl⟩
    ⟨none, rfl, Or.inl rfl⟩ ⟨⟨"feat: x", none⟩, rfl⟩ rfl rfl

end GitScribe
